import Mathlib

/-!
Shallow embedding of shorty/absent.py: a tool that classifies the files of a
"camera" tree as present in / absent from a "library" of trees by content
equality, using a size-keyed bucket index as a prefilter and `filecmp.cmp`
for the comparison cascade, and optionally deletes the matched camera files.

Modelling conventions:
* A filesystem is a partial map from path to file metadata+content
  (`FS := String → Option FileInfo`); `none` means `os.stat`/`open` raises
  (`FileNotFoundError` etc.).  `st_size` of a real regular file equals the
  length of its byte content, so size is derived from `content`.
* Exceptions are modelled with `Except FsError`; Python code with no
  try/except around a raising call propagates the error.
* Directory traversal (`os.walk` plus `os.path.join` and the backslash
  replacement) is the external collaborator: it is modelled as a function
  `walk : String → List String` giving, per root, the full file paths in
  traversal order.  `survey_library`'s nested folder/walk loops become a
  `flatMap` over the folders.
* `filecmp.cmp` (CPython Lib/filecmp.py) is embedded faithfully: its
  signature `_sig` is (file type, st_size, st_mtime); every path the program
  compares is a regular file yielded by `os.walk`, so the `S_IFREG` type
  test always passes and the signature reduces to (size, mtime).  With
  `shallow=True` equal signatures short-circuit to True; otherwise unequal
  sizes give False and equal sizes fall through to the byte-for-byte
  `_do_cmp`.  The module-level `_cache` memoises `_do_cmp` outcomes keyed by
  (path1, path2, sig1, sig2); under a fixed filesystem it cannot change any
  result, which is proved below (`filecmp.cmpC`/`locateC` model the cache
  explicitly and are shown to refine the stateless versions).
-/

/-- A regular file's observable state: its byte content and its
modification time (the other `_sig` component).  `st_size` is
`content.length`. -/
structure FileInfo where
  content : List Nat
  mtime : Nat
deriving DecidableEq, Repr

/-- The `st_size` of the file, as returned by `os.stat(...).st_size`. -/
def FileInfo.size (f : FileInfo) : Nat := f.content.length

/-- A filesystem state: `none` means stat/open on that path raises. -/
def FS : Type := String → Option FileInfo

/-- Errors raised by filesystem primitives (`os.stat`, `open`). -/
inductive FsError where
  | statError (path : String)
deriving DecidableEq, Repr

/-- The `filecmp` signature of a regular file: (st_size, st_mtime).
The `S_IFMT(st_mode)` component is `S_IFREG` for every file this program
touches, so it is omitted. -/
def fsig (f : FileInfo) : Nat × Nat := (f.content.length, f.mtime)

namespace filecmp

/-- Embedding of CPython's `filecmp.cmp(p1, p2, shallow)` on a fixed
filesystem, the `_cache` elided (it is modelled separately by `cmpC` below
and proved result-irrelevant).  Stats both paths (raising on failure); for
regular files: with `shallow` and equal signatures return True; unequal
sizes return False; otherwise `_do_cmp` compares the contents
byte-for-byte. -/
def cmp (fs : FS) (shallow : Bool) (p1 p2 : String) : Except FsError Bool :=
  match fs p1, fs p2 with
  | some f1, some f2 =>
    if shallow = true ∧ fsig f1 = fsig f2 then .ok true
    else if f1.content.length ≠ f2.content.length then .ok false
    else .ok (decide (f1.content = f2.content))
  | none, _ => .error (.statError p1)
  | some _, none => .error (.statError p2)

end filecmp

/-- Lookup in the size-keyed index, modelling `survey.get(flen, ())` on a
Python dict represented as an insertion-ordered association list. -/
def bucketGet (res : List (Nat × List String)) (k : Nat) : Option (List String) :=
  (res.find? (fun b => decide (b.1 = k))).map (fun b => b.2)

/-- The bucket for `k`, empty when absent: `survey.get(flen, ())`. -/
def bucketContents (res : List (Nat × List String)) (k : Nat) : List String :=
  (bucketGet res k).getD []

/-- Modelling `res.setdefault(flen, []).append(path)`: append `p` to the
bucket for `k`, creating the bucket at the end of the dict (Python dicts
preserve key insertion order) when absent. -/
def bucketAppend (res : List (Nat × List String)) (k : Nat) (p : String) :
    List (Nat × List String) :=
  match res with
  | [] => [(k, [p])]
  | b :: rest =>
    if b.1 = k then (b.1, b.2 ++ [p]) :: rest
    else b :: bucketAppend rest k p

/-- Output of `survey_library`: the index `res`, the file counter `cnt`,
the stat-error warnings printed (one per failing path, in order), and the
two derived counters printed at the end. -/
structure SurveyOut where
  res : List (Nat × List String)
  cnt : Nat
  warnings : List String
  nLengths : Nat
  dups : Nat
deriving DecidableEq, Repr

/-- The file loop of `survey_library`, iterating over the flattened
traversal: on a successful stat append the path to its length bucket, on
`FileNotFoundError`/`IOError` print a warning and continue; `cnt` counts
every file either way. -/
def surveyGo (fs : FS) : List String → List (Nat × List String) → Nat →
    List String → List (Nat × List String) × Nat × List String
  | [], res, cnt, warns => (res, cnt, warns)
  | p :: rest, res, cnt, warns =>
    match fs p with
    | some f => surveyGo fs rest (bucketAppend res f.content.length p) (cnt + 1) warns
    | none => surveyGo fs rest res (cnt + 1) (warns ++ [p])

/-- Model of `survey_library(folders)`: build the length-keyed index over all files
reachable from the library roots, then compute the summary counters
`nFiles` (= cnt), `nLengths` (= len(res)) and `dups` (buckets with more
than one file). -/
def survey_library (fs : FS) (walk : String → List String) (folders : List String) :
    SurveyOut :=
  let r := surveyGo fs (folders.flatMap walk) [] 0 []
  ⟨r.1, r.2.1, r.2.2, r.1.length,
    (r.1.filter (fun b => decide (b.2.length > 1))).length⟩

/-- Output of `locate`: the match result (`some` library path or `None`)
and the number of `filecmp.cmp` invocations performed (instrumentation for
the "no comparison calls" properties; the source does not count calls). -/
structure LocateOut where
  result : Option String
  cmpCalls : Nat
deriving DecidableEq, Repr

/-- The bucket loop of `locate`: for each library path, a shallow
`filecmp.cmp` (early reject on False), then a full `filecmp.cmp`;
on full equality return that library path immediately.  Exceptions from
`filecmp.cmp` propagate — there is no try/except here. -/
def locateGo (fs : FS) (tgt : String) : List String → Nat → Except FsError LocateOut
  | [], calls => .ok ⟨none, calls⟩
  | p :: rest, calls =>
    match filecmp.cmp fs true tgt p with
    | .error e => .error e
    | .ok false => locateGo fs tgt rest (calls + 1)
    | .ok true =>
      match filecmp.cmp fs false tgt p with
      | .error e => .error e
      | .ok true => .ok ⟨some p, calls + 2⟩
      | .ok false => locateGo fs tgt rest (calls + 2)

/-- Model of `locate(tgt_fpath, survey)`: stat the candidate (no try/except — a
failure propagates), look up its length bucket, return `None` on an empty
or missing bucket, otherwise run the comparison cascade over the bucket. -/
def locate (fs : FS) (tgt : String) (survey : List (Nat × List String)) :
    Except FsError LocateOut :=
  match fs tgt with
  | none => .error (.statError tgt)
  | some f =>
    let fpaths := bucketContents survey f.content.length
    if fpaths = [] then .ok ⟨none, 0⟩
    else locateGo fs tgt fpaths 0

/-- Output of `main`: the partition of the camera files, the printed
`fpath ==> found` match lines, the candidate counter, and the deletion
outcomes (paths removed, paths whose deletion raised). -/
structure MainOut where
  absent : List String
  notNeeded : List String
  matchedLines : List (String × String)
  cnt : Nat
  deleted : List String
  deleteErrors : List String
deriving DecidableEq, Repr

/-- The candidate loop of `main`: locate each camera file (a raised
exception propagates and aborts the loop — there is no try/except); a
truthy result (library paths, produced by `os.path.join`, are never the
empty string, so truthiness is `is not None`) goes to `not_needed` with a
match line printed, otherwise to `absent`. -/
def mainGo (fs : FS) (survey : List (Nat × List String)) :
    List String → List String → List String → List (String × String) → Nat →
    Except FsError (List String × List String × List (String × String) × Nat)
  | [], absent, notNeeded, lines, cnt => .ok (absent, notNeeded, lines, cnt)
  | p :: rest, absent, notNeeded, lines, cnt =>
    match locate fs p survey with
    | .error e => .error e
    | .ok out =>
      match out.result with
      | some found =>
        mainGo fs survey rest absent (notNeeded ++ [p]) (lines ++ [(p, found)]) (cnt + 1)
      | none =>
        mainGo fs survey rest (absent ++ [p]) notNeeded lines (cnt + 1)

/-- The deletion loop under `--rmdups`: attempt `os.remove` on every
matched path in order; a failure is caught per-file (`except Exception`),
reported, and the loop continues.  `del p = true` models a successful
removal, `false` a raising one. -/
def deleteAll (del : String → Bool) : List String → List String × List String
  | [] => ([], [])
  | p :: rest =>
    let r := deleteAll del rest
    if del p then (p :: r.1, r.2) else (r.1, p :: r.2)

/-- Model of `main(camera_folder, library_folders, rmdups)`: build the index, run
the candidate loop (an exception from `locate` propagates and aborts the
run), then, only if `rmdups`, delete the matched files one at a time. -/
def main_run (fs : FS) (walk : String → List String) (camera : String)
    (libs : List String) (rmdups : Bool) (del : String → Bool) :
    Except FsError MainOut :=
  let s := survey_library fs walk libs
  match mainGo fs s.res (walk camera) [] [] [] 0 with
  | .error e => .error e
  | .ok r =>
    let dr := if rmdups then deleteAll del r.2.1 else ([], [])
    .ok ⟨r.1, r.2.1, r.2.2.1, r.2.2.2, dr.1, dr.2⟩

/-- The Boolean predicate "`fs` can stat `p` and its size is `k`": exactly
the files that `survey_library` puts into bucket `k`. -/
def sizeIs (fs : FS) (k : Nat) (p : String) : Bool :=
  match fs p with
  | some g => decide (g.content.length = k)
  | none => false

namespace filecmp

/-- A `_sig` value: (st_size, st_mtime). -/
abbrev Sig := Nat × Nat

/-- A `_cache` key: (path1, path2, sig1, sig2). -/
abbrev CacheKey := String × String × Sig × Sig

/-- The module-level `filecmp._cache`, a dict from key to `_do_cmp`
outcome, modelled as an association list. -/
abbrev Cache := List (CacheKey × Bool)

/-- Model of `_cache.get(key)`. -/
def cacheGet (c : Cache) (k : CacheKey) : Option Bool :=
  (c.find? (fun e => decide (e.1 = k))).map (fun e => e.2)

/-- Model of `filecmp.cmp` with the `_cache` made explicit: on reaching the
`_do_cmp` stage, a cached outcome for (p1, p2, sig1, sig2) is returned
as-is; otherwise `_do_cmp` runs, the cache is cleared if it holds more
than 100 entries, and the outcome is stored. -/
def cmpC (fs : FS) (c : Cache) (shallow : Bool) (p1 p2 : String) :
    Except FsError (Bool × Cache) :=
  match fs p1, fs p2 with
  | some f1, some f2 =>
    if shallow = true ∧ fsig f1 = fsig f2 then .ok (true, c)
    else if f1.content.length ≠ f2.content.length then .ok (false, c)
    else
      match cacheGet c (p1, p2, fsig f1, fsig f2) with
      | some b => .ok (b, c)
      | none =>
        let b := decide (f1.content = f2.content)
        let c0 := if c.length > 100 then [] else c
        .ok (b, ((p1, p2, fsig f1, fsig f2), b) :: c0)
  | none, _ => .error (.statError p1)
  | some _, none => .error (.statError p2)

end filecmp

/-- A cache state is consistent with filesystem `fs` when every entry
whose recorded signatures match the current signatures of its two paths
records the true byte-for-byte comparison outcome.  (Entries with stale
signatures are never returned, since lookups key on current signatures.) -/
def CacheConsistent (fs : FS) (c : filecmp.Cache) : Prop :=
  ∀ p1 p2 s1 s2 b, ((p1, p2, s1, s2), b) ∈ c →
    ∀ f1 f2, fs p1 = some f1 → fs p2 = some f2 →
      s1 = fsig f1 → s2 = fsig f2 → b = decide (f1.content = f2.content)

/-- The bucket loop of `locate` with the `filecmp._cache` threaded
through the two `filecmp.cmp` calls. -/
def locateGoC (fs : FS) (tgt : String) :
    List String → filecmp.Cache → Except FsError (Option String × filecmp.Cache)
  | [], c => .ok (none, c)
  | p :: rest, c =>
    match filecmp.cmpC fs c true tgt p with
    | .error e => .error e
    | .ok (false, c1) => locateGoC fs tgt rest c1
    | .ok (true, c1) =>
      match filecmp.cmpC fs c1 false tgt p with
      | .error e => .error e
      | .ok (true, c2) => .ok (some p, c2)
      | .ok (false, c2) => locateGoC fs tgt rest c2

/-- Model of `locate` with the `filecmp._cache` threaded through: the state an
actual Python run carries between two calls to `locate`. -/
def locateC (fs : FS) (tgt : String) (survey : List (Nat × List String))
    (c : filecmp.Cache) : Except FsError (Option String × filecmp.Cache) :=
  match fs tgt with
  | none => .error (.statError tgt)
  | some f =>
    let fpaths := bucketContents survey f.content.length
    if fpaths = [] then .ok (none, c)
    else locateGoC fs tgt fpaths c

/-- Concrete filesystem: the camera holds an unreadable file `cam/a`
(stat raises) and a readable one `cam/b`; the library is empty. -/
def exFsC1 : FS := fun p =>
  if p = "cam/b" then some ⟨[7], 0⟩
  else none

/-- Concrete traversal for `exFsC1`: the camera yields `cam/b` then
`cam/a`. -/
def exWalkC1 : String → List String := fun r =>
  if r = "cam" then ["cam/b", "cam/a"] else []

/-- Concrete filesystem at index-build time: one library file `lib/x`. -/
def exFsIdx : FS := fun p =>
  if p = "lib/x" then some ⟨[1, 2], 5⟩ else none

/-- Concrete filesystem at resolution time: `lib/x` has been deleted;
the candidate `cam/c` has the same content `lib/x` had. -/
def exFsRun : FS := fun p =>
  if p = "cam/c" then some ⟨[1, 2], 6⟩ else none

/-- Concrete traversal: the library root yields `lib/x`. -/
def exWalkLib : String → List String := fun r =>
  if r = "lib" then ["lib/x"] else []

/-- Index-build-time filesystem with two same-size library files:
`lib/y` (content [9,9]) and `lib/x` (content [1,2]). -/
def exFsIdx2 : FS := fun p =>
  if p = "lib/y" then some ⟨[9, 9], 1⟩
  else if p = "lib/x" then some ⟨[1, 2], 5⟩ else none

/-- Resolution-time filesystem: `lib/x` has vanished, `lib/y` remains,
and the candidate `cam/c` matches the vanished `lib/x`. -/
def exFsRun2 : FS := fun p =>
  if p = "lib/y" then some ⟨[9, 9], 1⟩
  else if p = "cam/c" then some ⟨[1, 2], 6⟩ else none

/-- Concrete traversal: the library root yields `lib/y` then `lib/x`. -/
def exWalkLib2 : String → List String := fun r =>
  if r = "lib" then ["lib/y", "lib/x"] else []

/-- The collision scenario: library files `lib/A` (ten bytes 97) and
`lib/B` (ten bytes 98) share a size; candidate `cam/C` has `lib/B`'s
content. -/
def exFsAB : FS := fun p =>
  if p = "lib/A" then some ⟨List.replicate 10 97, 1⟩
  else if p = "lib/B" then some ⟨List.replicate 10 98, 2⟩
  else if p = "cam/C" then some ⟨List.replicate 10 98, 3⟩
  else none

/-- Concrete traversal for `exFsAB`: library root yields `lib/A` then
`lib/B`; camera root yields `cam/C`. -/
def exWalkAB : String → List String := fun r =>
  if r = "lib" then ["lib/A", "lib/B"]
  else if r = "cam" then ["cam/C"] else []

/-- The `filecmp._cache` state left behind by resolving `cam/C` against
{lib/A, lib/B} on `exFsAB` starting from an empty cache. -/
def exCacheAB : filecmp.Cache :=
  [(("cam/C", "lib/B", (10, 3), (10, 2)), true),
   (("cam/C", "lib/A", (10, 3), (10, 1)), false)]

/-- Overlapping-roots scenario: a single file `cam/x`, and the camera
root doubles as the library root. -/
def exFsSelf : FS := fun p =>
  if p = "cam/x" then some ⟨[5, 6], 0⟩ else none

/-- Traversal for `exFsSelf`: the shared root yields `cam/x`. -/
def exWalkSelf : String → List String := fun r =>
  if r = "cam" then ["cam/x"] else []

/-! Bucket and index lemmas -/

/-- Lookup in the empty index fails. -/
theorem bucketGet_nil (k : Nat) : bucketGet [] k = none := rfl

/-- Lookup steps over one bucket. -/
theorem bucketGet_cons (b : Nat × List String) (res : List (Nat × List String))
    (k : Nat) :
    bucketGet (b :: res) k = if b.1 = k then some b.2 else bucketGet res k := by
  by_cases h : b.1 = k <;> simp [bucketGet, List.find?_cons, h]

/-- How `setdefault`/`append` changes a lookup: the touched bucket gains
`p` at its end (coming into existence if needed), all others are
untouched. -/
theorem bucketGet_bucketAppend (res : List (Nat × List String)) (k : Nat)
    (p : String) (k2 : Nat) :
    bucketGet (bucketAppend res k p) k2 =
      if k2 = k then some (bucketContents res k2 ++ [p]) else bucketGet res k2 := by
  induction res with
  | nil =>
    by_cases h : k2 = k
    · subst h
      simp [bucketAppend, bucketGet_cons, bucketContents, bucketGet_nil]
    · have h' : ¬ ((k, [p]) : Nat × List String).1 = k2 := fun hh => h hh.symm
      simp only [bucketAppend, bucketGet_cons, bucketGet_nil, if_neg h, if_neg h']
  | cons b rest ih =>
    by_cases hb : b.1 = k
    · by_cases h2 : k2 = k
      · have hb2 : b.1 = k2 := by omega
        simp [bucketAppend, if_pos hb, bucketGet_cons, if_pos hb2, if_pos h2,
          bucketContents]
      · have hb2 : ¬ b.1 = k2 := by omega
        simp only [bucketAppend, if_pos hb, bucketGet_cons, if_neg hb2, if_neg h2]
    · by_cases h2 : b.1 = k2
      · have hk : ¬ k2 = k := by omega
        simp only [bucketAppend, if_neg hb, bucketGet_cons, if_pos h2, if_neg hk]
      · simp only [bucketAppend, if_neg hb, bucketGet_cons, if_neg h2, ih,
          bucketContents]

/-- The `bucketContents` version of `bucketGet_bucketAppend`. -/
theorem bucketContents_bucketAppend (res : List (Nat × List String)) (k : Nat)
    (p : String) (k2 : Nat) :
    bucketContents (bucketAppend res k p) k2 =
      if k2 = k then bucketContents res k2 ++ [p] else bucketContents res k2 := by
  by_cases h : k2 = k <;> simp [bucketContents, bucketGet_bucketAppend, h]

/-- Keys after an append: unchanged when the key is present, extended at
the end when absent (Python dict key insertion order). -/
theorem keys_bucketAppend (res : List (Nat × List String)) (k : Nat) (p : String) :
    (bucketAppend res k p).map Prod.fst =
      if k ∈ res.map Prod.fst then res.map Prod.fst else res.map Prod.fst ++ [k] := by
  induction res with
  | nil => simp [bucketAppend]
  | cons b rest ih =>
    by_cases hb : b.1 = k
    · simp [bucketAppend, hb]
    · have hkb : ¬ (k = b.1) := fun hh => hb hh.symm
      by_cases hm : k ∈ rest.map Prod.fst <;>
        simp [bucketAppend, hb, ih, hkb, hm]

/-- Appending to a bucket never duplicates a key. -/
theorem nodup_keys_bucketAppend (res : List (Nat × List String)) (k : Nat)
    (p : String) (h : (res.map Prod.fst).Nodup) :
    ((bucketAppend res k p).map Prod.fst).Nodup := by
  rw [keys_bucketAppend]
  by_cases hk : k ∈ res.map Prod.fst
  · simpa [hk] using h
  · simp [hk, List.nodup_append, h]

/-- Appending to a bucket preserves "every present bucket is non-empty". -/
theorem bucketGet_bucketAppend_ne_nil (res : List (Nat × List String)) (k : Nat)
    (p : String) (h : ∀ k2 l, bucketGet res k2 = some l → l ≠ [])
    (k2 : Nat) (l : List String)
    (hl : bucketGet (bucketAppend res k p) k2 = some l) : l ≠ [] := by
  rw [bucketGet_bucketAppend] at hl
  by_cases hk : k2 = k
  · rw [if_pos hk] at hl
    cases hl
    simp
  · rw [if_neg hk] at hl
    exact h k2 l hl

/-- The index accumulated by the survey loop: each bucket collects, after
the incoming accumulator's entries, exactly the stat-able files of that
size, in traversal order. -/
theorem surveyGo_contents (fs : FS) (files : List String) :
    ∀ res cnt warns k,
      bucketContents (surveyGo fs files res cnt warns).1 k =
        bucketContents res k ++ files.filter (sizeIs fs k) := by
  induction files with
  | nil => intro res cnt warns k; simp [surveyGo]
  | cons p rest ih =>
    intro res cnt warns k
    cases hp : fs p with
    | some f =>
      have hs : sizeIs fs k p = decide (f.content.length = k) := by
        simp [sizeIs, hp]
      by_cases hk : k = f.content.length
      · subst hk
        simp [surveyGo, hp, ih, bucketContents_bucketAppend, List.filter_cons, hs]
      · have hk2 : ¬ (f.content.length = k) := fun hh => hk hh.symm
        simp [surveyGo, hp, ih, bucketContents_bucketAppend, List.filter_cons,
          hs, hk, hk2]
    | none =>
      have hs : sizeIs fs k p = false := by simp [sizeIs, hp]
      simp [surveyGo, hp, ih, List.filter_cons, hs]

/-- The survey loop counts every file, stat-able or not. -/
theorem surveyGo_cnt (fs : FS) (files : List String) :
    ∀ res cnt warns, (surveyGo fs files res cnt warns).2.1 = cnt + files.length := by
  induction files with
  | nil => intro res cnt warns; simp [surveyGo]
  | cons p rest ih =>
    intro res cnt warns
    cases hp : fs p <;> simp [surveyGo, hp, ih] <;> omega

/-- The survey loop warns exactly about the files whose stat raises, in
traversal order, and keeps going afterwards. -/
theorem surveyGo_warnings (fs : FS) (files : List String) :
    ∀ res cnt warns,
      (surveyGo fs files res cnt warns).2.2 =
        warns ++ files.filter (fun p => (fs p).isNone) := by
  induction files with
  | nil => intro res cnt warns; simp [surveyGo]
  | cons p rest ih =>
    intro res cnt warns
    cases hp : fs p <;> simp [surveyGo, hp, ih, List.filter_cons]

/-- The survey loop keeps the bucket keys duplicate-free. -/
theorem surveyGo_keys_nodup (fs : FS) (files : List String) :
    ∀ res cnt warns, (res.map Prod.fst).Nodup →
      ((surveyGo fs files res cnt warns).1.map Prod.fst).Nodup := by
  induction files with
  | nil => intro res cnt warns h; simpa [surveyGo] using h
  | cons p rest ih =>
    intro res cnt warns h
    cases hp : fs p with
    | some f =>
      simp only [surveyGo, hp]
      exact ih _ _ _ (nodup_keys_bucketAppend _ _ _ h)
    | none =>
      simp only [surveyGo, hp]
      exact ih _ _ _ h

/-- The survey loop keeps every present bucket non-empty. -/
theorem surveyGo_nonempty (fs : FS) (files : List String) :
    ∀ res cnt warns, (∀ k l, bucketGet res k = some l → l ≠ []) →
      ∀ k l, bucketGet (surveyGo fs files res cnt warns).1 k = some l → l ≠ [] := by
  induction files with
  | nil =>
    intro res cnt warns h k l hl
    exact h k l (by simpa [surveyGo] using hl)
  | cons p rest ih =>
    intro res cnt warns h
    cases hp : fs p with
    | some f =>
      simp only [surveyGo, hp]
      exact ih _ _ _ (fun k l => bucketGet_bucketAppend_ne_nil res _ p h k l)
    | none =>
      simp only [surveyGo, hp]
      exact ih _ _ _ h

/-- C6: for every set of library roots, `survey_library` appends a record
(path, in the bucket of its byte length) for each stat-able file, excludes
each file whose length read fails while recording a warning naming its
path and continuing (the build is total — these equations hold for every
filesystem, so it never aborts), and its reported counters are: total
files scanned including excluded ones (`cnt`), the number of distinct
length buckets (`nLengths`, keys being duplicate-free), and the number of
buckets holding more than one record (`dups`). -/
theorem survey_library_build_spec (fs : FS) (walk : String → List String)
    (folders : List String) :
    (survey_library fs walk folders).cnt = (folders.flatMap walk).length ∧
    (survey_library fs walk folders).warnings =
      (folders.flatMap walk).filter (fun p => (fs p).isNone) ∧
    (∀ k, bucketContents (survey_library fs walk folders).res k =
      (folders.flatMap walk).filter (sizeIs fs k)) ∧
    ((survey_library fs walk folders).res.map Prod.fst).Nodup ∧
    (survey_library fs walk folders).nLengths =
      (survey_library fs walk folders).res.length ∧
    (survey_library fs walk folders).dups =
      ((survey_library fs walk folders).res.filter
        (fun b => decide (b.2.length > 1))).length := by
  refine ⟨?_, ?_, ?_, ?_, rfl, rfl⟩
  · simpa [survey_library] using surveyGo_cnt fs (folders.flatMap walk) [] 0 []
  · simpa [survey_library] using surveyGo_warnings fs (folders.flatMap walk) [] 0 []
  · intro k
    simpa [survey_library, bucketContents, bucketGet_nil] using
      surveyGo_contents fs (folders.flatMap walk) [] 0 [] k
  · exact surveyGo_keys_nodup fs (folders.flatMap walk) [] 0 [] (by simp)

/-- C9: every length key present in the index built by `survey_library`
maps to a non-empty list of paths, so the resolver's empty-bucket early
exit can only be taken when the candidate's length is absent from the
index. -/
theorem survey_buckets_nonempty (fs : FS) (walk : String → List String)
    (folders : List String) (k : Nat) :
    (∀ l, bucketGet (survey_library fs walk folders).res k = some l → l ≠ []) ∧
    (bucketContents (survey_library fs walk folders).res k = [] →
      bucketGet (survey_library fs walk folders).res k = none) := by
  have hne : ∀ l, bucketGet (survey_library fs walk folders).res k = some l →
      l ≠ [] := by
    intro l hl
    refine surveyGo_nonempty fs (folders.flatMap walk) [] 0 []
      (fun k2 l2 hl2 => by rw [bucketGet_nil] at hl2; cases hl2) k l ?_
    simpa [survey_library] using hl
  refine ⟨hne, ?_⟩
  intro hc
  cases hg : bucketGet (survey_library fs walk folders).res k with
  | none => rfl
  | some l =>
    exact absurd (by simpa [bucketContents, hg] using hc) (hne l hg)

/-- Witness for C9 at a concrete index: the bucket for length 2 exists
and is the non-empty `[lib/x]`. -/
theorem survey_buckets_nonempty_witness :
    bucketGet (survey_library exFsIdx exWalkLib ["lib"]).res 2 = some ["lib/x"] ∧
      (["lib/x"] : List String) ≠ [] := by
  have h : bucketGet (survey_library exFsIdx exWalkLib ["lib"]).res 2 =
      some ["lib/x"] := by rfl
  exact ⟨h, (survey_buckets_nonempty exFsIdx exWalkLib ["lib"] 2).1 ["lib/x"] h⟩

/-! Comparison cascade lemmas -/

/-- Unfolding of the bucket loop on a non-empty bucket. -/
theorem locateGo_cons (fs : FS) (tgt p : String) (rest : List String) (calls : Nat) :
    locateGo fs tgt (p :: rest) calls =
      match filecmp.cmp fs true tgt p with
      | .error e => .error e
      | .ok false => locateGo fs tgt rest (calls + 1)
      | .ok true =>
        match filecmp.cmp fs false tgt p with
        | .error e => .error e
        | .ok true => .ok ⟨some p, calls + 2⟩
        | .ok false => locateGo fs tgt rest (calls + 2) := rfl

/-- The authoritative full comparison succeeds exactly on stat-able,
byte-for-byte identical pairs. -/
theorem cmp_full_ok_true_iff (fs : FS) (p1 p2 : String) :
    filecmp.cmp fs false p1 p2 = .ok true ↔
      ∃ f1 f2, fs p1 = some f1 ∧ fs p2 = some f2 ∧ f1.content = f2.content := by
  constructor
  · intro h
    cases h1 : fs p1 with
    | none => simp [filecmp.cmp, h1] at h
    | some f1 =>
      cases h2 : fs p2 with
      | none => simp [filecmp.cmp, h1, h2] at h
      | some f2 =>
        refine ⟨f1, f2, rfl, rfl, ?_⟩
        simp only [filecmp.cmp, h1, h2] at h
        by_cases hl : f1.content.length ≠ f2.content.length
        · simp [hl] at h
        · simpa [hl] using h
  · rintro ⟨f1, f2, h1, h2, hc⟩
    have hl : ¬ (f1.content.length ≠ f2.content.length) := by rw [hc]; simp
    simp [filecmp.cmp, h1, h2, hl, hc]

/-- Byte-identical stat-able files always pass the shallow check: equal
signatures short-circuit to True, and unequal signatures with equal
contents fall through to a successful `_do_cmp` — the shallow heuristic
has no false negatives for truly identical regular files. -/
theorem cmp_shallow_of_identical (fs : FS) (p1 p2 : String) (f1 f2 : FileInfo)
    (h1 : fs p1 = some f1) (h2 : fs p2 = some f2)
    (hc : f1.content = f2.content) :
    filecmp.cmp fs true p1 p2 = .ok true := by
  by_cases hs : fsig f1 = fsig f2
  · simp [filecmp.cmp, h1, h2, hs]
  · have hl : ¬ (f1.content.length ≠ f2.content.length) := by rw [hc]; simp
    simp [filecmp.cmp, h1, h2, hs, hl, hc]

/-- The comparison `filecmp.cmp` never raises on a stat-able pair. -/
theorem cmp_ok_of_statable (fs : FS) (sh : Bool) (p1 p2 : String)
    (f1 f2 : FileInfo) (h1 : fs p1 = some f1) (h2 : fs p2 = some f2) :
    ∃ b, filecmp.cmp fs sh p1 p2 = .ok b := by
  simp only [filecmp.cmp, h1, h2]
  split
  · exact ⟨true, rfl⟩
  · split
    · exact ⟨false, rfl⟩
    · exact ⟨_, rfl⟩

/-- A False full comparison on a stat-able pair means the contents
differ. -/
theorem cmp_full_ok_false (fs : FS) (p1 p2 : String) (f1 f2 : FileInfo)
    (h1 : fs p1 = some f1) (h2 : fs p2 = some f2)
    (h : filecmp.cmp fs false p1 p2 = .ok false) : f1.content ≠ f2.content := by
  intro hc
  have ht := (cmp_full_ok_true_iff fs p1 p2).2 ⟨f1, f2, h1, h2, hc⟩
  rw [ht] at h
  cases h

/-- A False shallow comparison on a stat-able pair also means the
contents differ (contrapositive of `cmp_shallow_of_identical`). -/
theorem cmp_shallow_ok_false (fs : FS) (p1 p2 : String) (f1 f2 : FileInfo)
    (h1 : fs p1 = some f1) (h2 : fs p2 = some f2)
    (h : filecmp.cmp fs true p1 p2 = .ok false) : f1.content ≠ f2.content := by
  intro hc
  have ht := cmp_shallow_of_identical fs p1 p2 f1 f2 h1 h2 hc
  rw [ht] at h
  cases h

/-- If the bucket loop returns a match, the matched path lies in the
bucket and is byte-identical to the candidate. -/
theorem locateGo_result_mem (fs : FS) (tgt : String) (l : List String) :
    ∀ calls out, locateGo fs tgt l calls = .ok out →
      ∀ q, out.result = some q →
        q ∈ l ∧ ∃ f g, fs tgt = some f ∧ fs q = some g ∧ f.content = g.content := by
  induction l with
  | nil =>
    intro calls out h q hq
    simp only [locateGo] at h
    cases h
    cases hq
  | cons p rest ih =>
    intro calls out h q hq
    rw [locateGo_cons] at h
    cases hsh : filecmp.cmp fs true tgt p with
    | error e => rw [hsh] at h; cases h
    | ok b =>
      rw [hsh] at h
      cases b with
      | false =>
        obtain ⟨hm, hrest⟩ := ih _ _ h q hq
        exact ⟨List.mem_cons_of_mem _ hm, hrest⟩
      | true =>
        cases hfull : filecmp.cmp fs false tgt p with
        | error e => rw [hfull] at h; cases h
        | ok b2 =>
          rw [hfull] at h
          cases b2 with
          | false =>
            obtain ⟨hm, hrest⟩ := ih _ _ h q hq
            exact ⟨List.mem_cons_of_mem _ hm, hrest⟩
          | true =>
            cases h
            cases hq
            obtain ⟨f, g, hf, hg, hc⟩ := (cmp_full_ok_true_iff fs tgt p).1 hfull
            exact ⟨List.mem_cons_self _ _, f, g, hf, hg, hc⟩

/-- The bucket loop never raises when the candidate and every bucket
record can be stat-ed. -/
theorem locateGo_total (fs : FS) (tgt : String) (f : FileInfo)
    (hT : fs tgt = some f) (l : List String)
    (hAll : ∀ r ∈ l, (fs r).isSome) :
    ∀ calls, ∃ out, locateGo fs tgt l calls = .ok out := by
  induction l with
  | nil => intro calls; exact ⟨⟨none, calls⟩, rfl⟩
  | cons p rest ih =>
    intro calls
    have hp : (fs p).isSome := hAll p (List.mem_cons_self _ _)
    obtain ⟨g, hg⟩ := Option.isSome_iff_exists.1 hp
    have hrest : ∀ r ∈ rest, (fs r).isSome :=
      fun r hr => hAll r (List.mem_cons_of_mem _ hr)
    obtain ⟨b, hb⟩ := cmp_ok_of_statable fs true tgt p f g hT hg
    cases b with
    | false =>
      obtain ⟨out, hout⟩ := ih hrest (calls + 1)
      exact ⟨out, by rw [locateGo_cons, hb]; exact hout⟩
    | true =>
      obtain ⟨b2, hb2⟩ := cmp_ok_of_statable fs false tgt p f g hT hg
      cases b2 with
      | true => exact ⟨⟨some p, calls + 2⟩, by rw [locateGo_cons, hb, hb2]⟩
      | false =>
        obtain ⟨out, hout⟩ := ih hrest (calls + 2)
        exact ⟨out, by rw [locateGo_cons, hb, hb2]; exact hout⟩

/-- If some bucket record is byte-identical to the candidate and every
bucket record can be stat-ed, the bucket loop reports a match. -/
theorem locateGo_finds (fs : FS) (tgt : String) (f : FileInfo)
    (hT : fs tgt = some f) (l : List String) :
    (∀ r ∈ l, (fs r).isSome) →
    (∃ r ∈ l, ∃ g, fs r = some g ∧ g.content = f.content) →
    ∀ calls out, locateGo fs tgt l calls = .ok out → out.result.isSome := by
  induction l with
  | nil => rintro _ ⟨r, hr, _⟩ _ _ _; cases hr
  | cons p rest ih =>
    intro hAll hEx calls out h
    have hp : (fs p).isSome := hAll p (List.mem_cons_self _ _)
    obtain ⟨g, hg⟩ := Option.isSome_iff_exists.1 hp
    have hrest : ∀ r ∈ rest, (fs r).isSome :=
      fun r hr => hAll r (List.mem_cons_of_mem _ hr)
    rw [locateGo_cons] at h
    cases hsh : filecmp.cmp fs true tgt p with
    | error e => rw [hsh] at h; cases h
    | ok b =>
      rw [hsh] at h
      cases b with
      | false =>
        have hne : g.content ≠ f.content := by
          intro hc
          exact absurd hsh (by
            rw [cmp_shallow_of_identical fs tgt p f g hT hg hc.symm]
            simp)
        refine ih hrest ?_ _ _ h
        obtain ⟨r, hr, g2, hg2, hc2⟩ := hEx
        rcases List.mem_cons.1 hr with hrp | hrr
        · subst hrp
          rw [hg] at hg2
          cases hg2
          exact absurd hc2 hne
        · exact ⟨r, hrr, g2, hg2, hc2⟩
      | true =>
        cases hfull : filecmp.cmp fs false tgt p with
        | error e => rw [hfull] at h; cases h
        | ok b2 =>
          rw [hfull] at h
          cases b2 with
          | true => cases h; rfl
          | false =>
            have hne : g.content ≠ f.content := fun hc =>
              cmp_full_ok_false fs tgt p f g hT hg hfull hc.symm
            refine ih hrest ?_ _ _ h
            obtain ⟨r, hr, g2, hg2, hc2⟩ := hEx
            rcases List.mem_cons.1 hr with hrp | hrr
            · subst hrp
              rw [hg] at hg2
              cases hg2
              exact absurd hc2 hne
            · exact ⟨r, hrr, g2, hg2, hc2⟩

/-- The bucket loop walks past a prefix of stat-able records whose
contents differ from the candidate's, without stopping and without
matching any of them. -/
theorem locateGo_skip (fs : FS) (tgt : String) (f : FileInfo)
    (hT : fs tgt = some f) (pre : List String)
    (hpre : ∀ r ∈ pre, ∃ g, fs r = some g ∧ g.content ≠ f.content) :
    ∀ l calls, ∃ calls2,
      locateGo fs tgt (pre ++ l) calls = locateGo fs tgt l calls2 := by
  induction pre with
  | nil => intro l calls; exact ⟨calls, rfl⟩
  | cons r pre ih =>
    intro l calls
    obtain ⟨g, hg, hne⟩ := hpre r (List.mem_cons_self _ _)
    have hpre2 : ∀ x ∈ pre, ∃ g2, fs x = some g2 ∧ g2.content ≠ f.content :=
      fun x hx => hpre x (List.mem_cons_of_mem _ hx)
    obtain ⟨b, hb⟩ := cmp_ok_of_statable fs true tgt r f g hT hg
    rw [List.cons_append, locateGo_cons, hb]
    cases b with
    | false => exact ih hpre2 l (calls + 1)
    | true =>
      obtain ⟨b2, hb2⟩ := cmp_ok_of_statable fs false tgt r f g hT hg
      cases b2 with
      | true =>
        obtain ⟨f2, g2, hf2, hg2, hc2⟩ := (cmp_full_ok_true_iff fs tgt r).1 hb2
        rw [hT] at hf2
        rw [hg] at hg2
        cases hf2
        cases hg2
        exact absurd hc2.symm hne
      | false =>
        rw [hb2]
        exact ih hpre2 l (calls + 2)

/-- A byte-identical record at the head of the remaining bucket is
matched immediately. -/
theorem locateGo_first_match (fs : FS) (tgt q : String) (f g : FileInfo)
    (rest : List String) (calls : Nat)
    (hT : fs tgt = some f) (hq : fs q = some g) (hc : g.content = f.content) :
    locateGo fs tgt (q :: rest) calls = .ok ⟨some q, calls + 2⟩ := by
  have hsh : filecmp.cmp fs true tgt q = .ok true :=
    cmp_shallow_of_identical fs tgt q f g hT hq hc.symm
  have hfull : filecmp.cmp fs false tgt q = .ok true :=
    (cmp_full_ok_true_iff fs tgt q).2 ⟨f, g, hT, hq, hc.symm⟩
  rw [locateGo_cons, hsh, hfull]

/-- A record that can no longer be stat-ed makes the bucket loop raise
the moment it is reached. -/
theorem locateGo_error_head (fs : FS) (tgt q : String) (f : FileInfo)
    (rest : List String) (calls : Nat)
    (hT : fs tgt = some f) (hq : fs q = none) :
    locateGo fs tgt (q :: rest) calls = .error (.statError q) := by
  have hsh : filecmp.cmp fs true tgt q = .error (.statError q) := by
    simp [filecmp.cmp, hT, hq]
  rw [locateGo_cons, hsh]

/-- C3: over an index built by `survey_library` on a stable filesystem
(candidate and library files stat-able), `locate` reports a match exactly
when some library file is byte-for-byte identical to the candidate, and
any path it returns is such a file — passing the cheap shallow check alone
never produces a match, since the authoritative full comparison guards
every return. -/
theorem locate_matched_iff_identical (fs : FS) (walk : String → List String)
    (folders : List String) (tgt : String) (f : FileInfo)
    (hT : fs tgt = some f)
    (hAll : ∀ p ∈ folders.flatMap walk, (fs p).isSome) :
    ∃ out, locate fs tgt (survey_library fs walk folders).res = .ok out ∧
      (out.result.isSome ↔ ∃ p ∈ folders.flatMap walk,
        ∃ g, fs p = some g ∧ g.content = f.content) ∧
      (∀ q, out.result = some q →
        q ∈ folders.flatMap walk ∧ ∃ g, fs q = some g ∧ g.content = f.content) := by
  have hB : bucketContents (survey_library fs walk folders).res f.content.length =
      (folders.flatMap walk).filter (sizeIs fs f.content.length) := by
    simpa [survey_library, bucketContents, bucketGet_nil] using
      surveyGo_contents fs (folders.flatMap walk) [] 0 [] f.content.length
  have hmemB : ∀ p g, p ∈ folders.flatMap walk → fs p = some g →
      g.content = f.content →
      p ∈ bucketContents (survey_library fs walk folders).res f.content.length := by
    intro p g hp hg hc
    rw [hB]
    refine List.mem_filter.2 ⟨hp, ?_⟩
    simp [sizeIs, hg, hc]
  have hBsub : ∀ p,
      p ∈ bucketContents (survey_library fs walk folders).res f.content.length →
      p ∈ folders.flatMap walk := by
    intro p hp
    rw [hB] at hp
    exact (List.mem_filter.1 hp).1
  by_cases hBe :
      bucketContents (survey_library fs walk folders).res f.content.length = []
  · refine ⟨⟨none, 0⟩, by simp [locate, hT, hBe], ?_, ?_⟩
    · simp only [Option.isSome_none, Bool.false_eq_true, false_iff]
      rintro ⟨p, hp, g, hg, hc⟩
      have := hmemB p g hp hg hc
      rw [hBe] at this
      cases this
    · intro q hq
      cases hq
  · have hAllB : ∀ r ∈
        bucketContents (survey_library fs walk folders).res f.content.length,
        (fs r).isSome := fun r hr => hAll r (hBsub r hr)
    obtain ⟨out, hout⟩ := locateGo_total fs tgt f hT _ hAllB 0
    have hloc : locate fs tgt (survey_library fs walk folders).res = .ok out := by
      simp only [locate, hT]
      rw [if_neg hBe]
      exact hout
    refine ⟨out, hloc, ?_, ?_⟩
    · constructor
      · intro hsome
        obtain ⟨q, hq⟩ := Option.isSome_iff_exists.1 hsome
        obtain ⟨hm, f2, g, hf2, hg, hc⟩ := locateGo_result_mem fs tgt _ _ _ hout q hq
        rw [hT] at hf2
        cases hf2
        exact ⟨q, hBsub q hm, g, hg, hc.symm⟩
      · rintro ⟨p, hp, g, hg, hc⟩
        exact locateGo_finds fs tgt f hT _ hAllB
          ⟨p, hmemB p g hp hg hc, g, hg, hc⟩ _ _ hout
    · intro q hq
      obtain ⟨hm, f2, g, hf2, hg, hc⟩ := locateGo_result_mem fs tgt _ _ _ hout q hq
      rw [hT] at hf2
      cases hf2
      exact ⟨hBsub q hm, g, hg, hc.symm⟩

/-- Witness for C3 on the collision scenario: candidate `cam/C` against
library {lib/A, lib/B}. -/
theorem locate_matched_iff_identical_witness :
    ∃ out, locate exFsAB "cam/C" (survey_library exFsAB exWalkAB ["lib"]).res =
        .ok out ∧
      (out.result.isSome ↔ ∃ p ∈ (["lib"] : List String).flatMap exWalkAB,
        ∃ g, exFsAB p = some g ∧
          g.content = (⟨List.replicate 10 98, 3⟩ : FileInfo).content) ∧
      (∀ q, out.result = some q →
        q ∈ (["lib"] : List String).flatMap exWalkAB ∧
        ∃ g, exFsAB q = some g ∧
          g.content = (⟨List.replicate 10 98, 3⟩ : FileInfo).content) :=
  locate_matched_iff_identical exFsAB exWalkAB ["lib"] "cam/C"
    ⟨List.replicate 10 98, 3⟩ (by rfl) (by decide)

/-- C4: the resolver scans the candidate's length bucket in insertion
order, walks past same-size records that fail the full comparison, and
returns the first byte-identical record it reaches. -/
theorem locate_first_exact_match (fs : FS) (survey : List (Nat × List String))
    (tgt q : String) (f g : FileInfo) (pre rest : List String)
    (hT : fs tgt = some f)
    (hB : bucketContents survey f.content.length = pre ++ q :: rest)
    (hpre : ∀ r ∈ pre, ∃ g2, fs r = some g2 ∧ g2.content ≠ f.content)
    (hq : fs q = some g) (hc : g.content = f.content) :
    ∃ out, locate fs tgt survey = .ok out ∧ out.result = some q := by
  obtain ⟨calls2, hskip⟩ := locateGo_skip fs tgt f hT pre hpre (q :: rest) 0
  refine ⟨⟨some q, calls2 + 2⟩, ?_, rfl⟩
  simp only [locate, hT, hB]
  rw [if_neg (by simp : ¬(pre ++ q :: rest = []))]
  rw [hskip, locateGo_first_match fs tgt q f g rest calls2 hT hq hc]

/-- Witness for C4 on the scenario from the spec: library = {A (ten bytes
of 97), B (ten bytes of 98)}, candidate C has B's content; the resolver
returns `Matched(lib/B)` — not Unmatched and not `Matched(lib/A)`. -/
theorem locate_first_exact_match_witness :
    ∃ out, locate exFsAB "cam/C"
        (survey_library exFsAB exWalkAB ["lib"]).res = .ok out ∧
      out.result = some "lib/B" :=
  locate_first_exact_match exFsAB (survey_library exFsAB exWalkAB ["lib"]).res
    "cam/C" "lib/B" ⟨List.replicate 10 98, 3⟩ ⟨List.replicate 10 98, 2⟩
    ["lib/A"] [] (by rfl) (by rfl)
    (by
      intro r hr
      rw [List.mem_singleton] at hr
      subst hr
      exact ⟨⟨List.replicate 10 97, 1⟩, rfl, by decide⟩)
    (by rfl) (by rfl)

/-- C5: a candidate whose byte length matches no key of the index
(including the empty-library index) is immediately Unmatched, with zero
`filecmp.cmp` calls performed. -/
theorem locate_size_prefilter (fs : FS) (survey : List (Nat × List String))
    (tgt : String) (f : FileInfo) (hT : fs tgt = some f)
    (hNo : bucketGet survey f.content.length = none) :
    locate fs tgt survey = .ok ⟨none, 0⟩ := by
  simp [locate, hT, bucketContents, hNo]

/-- Witness for C5 with the empty library: the index over zero folders
has no key for length 2, and `locate` answers Unmatched with zero
comparison calls. -/
theorem locate_size_prefilter_witness :
    locate exFsRun "cam/c" (survey_library exFsRun exWalkLib []).res =
      .ok ⟨none, 0⟩ :=
  locate_size_prefilter exFsRun (survey_library exFsRun exWalkLib []).res
    "cam/c" ⟨[1, 2], 6⟩ (by rfl) (by rfl)

/-- Counterexample to C2 as stated: the single library record `lib/x` was
deleted between index build and resolution; `locate` does not treat it as
a non-match and continue — the `os.stat` inside `filecmp.cmp` raises and
the exception propagates out of `locate`. -/
theorem locate_record_failure_cex :
    locate exFsRun "cam/c" (survey_library exFsIdx exWalkLib ["lib"]).res =
      .error (.statError "lib/x") := by rfl

/-- C2 as amended: when the cascade reaches a bucket record that can no
longer be stat-ed (records before it being stat-able non-matches), the
exception from `filecmp.cmp` propagates and aborts resolution of the
candidate — no warning, no continuation with the rest of the bucket. -/
theorem locate_record_failure_aborts (fs : FS) (survey : List (Nat × List String))
    (tgt q : String) (f : FileInfo) (pre rest : List String)
    (hT : fs tgt = some f)
    (hB : bucketContents survey f.content.length = pre ++ q :: rest)
    (hpre : ∀ r ∈ pre, ∃ g2, fs r = some g2 ∧ g2.content ≠ f.content)
    (hq : fs q = none) :
    locate fs tgt survey = .error (.statError q) := by
  obtain ⟨calls2, hskip⟩ := locateGo_skip fs tgt f hT pre hpre (q :: rest) 0
  simp only [locate, hT, hB]
  rw [if_neg (by simp : ¬(pre ++ q :: rest = []))]
  rw [hskip, locateGo_error_head fs tgt q f rest calls2 hT hq]

/-- Witness for the amended C2: `lib/y` (a stat-able non-match) is walked
past, then the vanished `lib/x` aborts resolution. -/
theorem locate_record_failure_aborts_witness :
    locate exFsRun2 "cam/c" (survey_library exFsIdx2 exWalkLib2 ["lib"]).res =
      .error (.statError "lib/x") :=
  locate_record_failure_aborts exFsRun2
    (survey_library exFsIdx2 exWalkLib2 ["lib"]).res "cam/c" "lib/x"
    ⟨[1, 2], 6⟩ ["lib/y"] [] (by rfl) (by rfl)
    (by
      intro r hr
      rw [List.mem_singleton] at hr
      subst hr
      exact ⟨⟨[9, 9], 1⟩, rfl, by decide⟩)
    (by rfl)

/-! Orchestration lemmas -/

/-- Unfolding of the candidate loop on a non-empty candidate list. -/
theorem mainGo_cons (fs : FS) (survey : List (Nat × List String)) (p : String)
    (rest absent notNeeded : List String) (lines : List (String × String))
    (cnt : Nat) :
    mainGo fs survey (p :: rest) absent notNeeded lines cnt =
      match locate fs p survey with
      | .error e => .error e
      | .ok out =>
        match out.result with
        | some found =>
          mainGo fs survey rest absent (notNeeded ++ [p])
            (lines ++ [(p, found)]) (cnt + 1)
        | none =>
          mainGo fs survey rest (absent ++ [p]) notNeeded lines (cnt + 1) := rfl

/-- The candidate loop walks past a prefix of candidates whose resolution
does not raise. -/
theorem mainGo_skip (fs : FS) (survey : List (Nat × List String)) :
    ∀ pre : List String, (∀ q ∈ pre, ∃ o, locate fs q survey = .ok o) →
      ∀ l absent notNeeded lines cnt, ∃ a2 n2 l2 c2,
        mainGo fs survey (pre ++ l) absent notNeeded lines cnt =
          mainGo fs survey l a2 n2 l2 c2 := by
  intro pre
  induction pre with
  | nil => intro _ l a n li c; exact ⟨a, n, li, c, rfl⟩
  | cons p pre ih =>
    intro h l a n li c
    obtain ⟨⟨ores, ocalls⟩, ho⟩ := h p (List.mem_cons_self _ _)
    have h2 : ∀ q ∈ pre, ∃ o, locate fs q survey = .ok o :=
      fun q hq => h q (List.mem_cons_of_mem _ hq)
    rw [List.cons_append]
    cases ores with
    | some found =>
      have hstep : mainGo fs survey (p :: (pre ++ l)) a n li c =
          mainGo fs survey (pre ++ l) a (n ++ [p]) (li ++ [(p, found)]) (c + 1) := by
        rw [mainGo_cons, ho]
      rw [hstep]
      exact ih h2 l a (n ++ [p]) (li ++ [(p, found)]) (c + 1)
    | none =>
      have hstep : mainGo fs survey (p :: (pre ++ l)) a n li c =
          mainGo fs survey (pre ++ l) (a ++ [p]) n li (c + 1) := by
        rw [mainGo_cons, ho]
      rw [hstep]
      exact ih h2 l (a ++ [p]) n li (c + 1)

/-- Counterexample to C1 as stated: `cam/a` was deleted mid-run; instead
of excluding it, warning, and continuing, the whole run aborts with the
propagated stat exception (after having processed `cam/b`). -/
theorem main_candidate_failure_cex :
    main_run exFsC1 exWalkC1 "cam" [] false (fun _ => true) =
      .error (.statError "cam/a") := by rfl

/-- C1 as amended: when a candidate's byte-length read fails (candidates
before it resolving without exception), the stat exception propagates out
of `locate` through `main`'s unprotected loop and the run aborts — the
candidate lands in neither list, no warning is recorded, and the
remaining candidates are not processed. -/
theorem main_candidate_failure_aborts (fs : FS) (walk : String → List String)
    (camera : String) (libs : List String) (rmdups : Bool) (del : String → Bool)
    (pre rest : List String) (p : String)
    (hw : walk camera = pre ++ p :: rest)
    (hpre : ∀ q ∈ pre, ∃ o, locate fs q (survey_library fs walk libs).res = .ok o)
    (hp : fs p = none) :
    main_run fs walk camera libs rmdups del = .error (.statError p) := by
  obtain ⟨a2, n2, l2, c2, hskip⟩ :=
    mainGo_skip fs (survey_library fs walk libs).res pre hpre (p :: rest) [] [] [] 0
  have hloc : locate fs p (survey_library fs walk libs).res =
      .error (.statError p) := by
    simp [locate, hp]
  have habort : mainGo fs (survey_library fs walk libs).res (p :: rest) a2 n2 l2 c2 =
      .error (.statError p) := by
    rw [mainGo_cons, hloc]
  simp only [main_run]
  rw [hw, hskip, habort]

/-- Witness for the amended C1 (with deletion mode on and a failing
deleter, exercising a different orchestration path than the
counterexample): `cam/b` resolves fine, then the vanished `cam/a` aborts
the run. -/
theorem main_candidate_failure_aborts_witness :
    main_run exFsC1 exWalkC1 "cam" [] true (fun _ => false) =
      .error (.statError "cam/a") :=
  main_candidate_failure_aborts exFsC1 exWalkC1 "cam" [] true (fun _ => false)
    ["cam/b"] [] "cam/a" (by rfl)
    (by
      intro q hq
      rw [List.mem_singleton] at hq
      subst hq
      exact ⟨⟨none, 0⟩, by rfl⟩)
    (by rfl)

/-- The deletion loop attempts every path in order, partitioning matched
paths into deleted ones and per-path reported failures — a failure never
stops the remaining deletions. -/
theorem deleteAll_spec (del : String → Bool) (l : List String) :
    deleteAll del l =
      (l.filter (fun p => del p), l.filter (fun p => !(del p))) := by
  induction l with
  | nil => rfl
  | cons p rest ih =>
    cases hd : del p <;> simp [deleteAll, ih, List.filter_cons, hd]

/-- C7: under `--rmdups` every matched candidate is attempted exactly
once, one at a time, a per-file deletion failure is reported without
stopping the rest (deleted/deleteErrors partition `notNeeded` by the
deleter's outcome, preserving order), and deletion happens only after all
resolution is complete: the resolution outputs are identical for every
deleter, so no deletion can be interleaved with (or influence) index
building or resolution. -/
theorem main_deletion_spec (fs : FS) (walk : String → List String)
    (camera : String) (libs : List String) (rmdups : Bool) (del : String → Bool)
    (out : MainOut)
    (h : main_run fs walk camera libs rmdups del = .ok out) :
    out.deleted = (if rmdups then out.notNeeded.filter (fun p => del p) else []) ∧
    out.deleteErrors =
      (if rmdups then out.notNeeded.filter (fun p => !(del p)) else []) ∧
    (∀ del2, ∃ out2, main_run fs walk camera libs rmdups del2 = .ok out2 ∧
      out2.absent = out.absent ∧ out2.notNeeded = out.notNeeded ∧
      out2.matchedLines = out.matchedLines ∧ out2.cnt = out.cnt) := by
  simp only [main_run] at h
  cases hm : mainGo fs (survey_library fs walk libs).res (walk camera) [] [] [] 0 with
  | error e => rw [hm] at h; cases h
  | ok r =>
    rw [hm] at h
    cases h
    cases rmdups with
    | true =>
      refine ⟨by simp [deleteAll_spec], by simp [deleteAll_spec], ?_⟩
      intro del2
      refine ⟨⟨r.1, r.2.1, r.2.2.1, r.2.2.2,
        (deleteAll del2 r.2.1).1, (deleteAll del2 r.2.1).2⟩, ?_, rfl, rfl, rfl, rfl⟩
      simp only [main_run]
      rw [hm]
      simp
    | false =>
      refine ⟨rfl, rfl, ?_⟩
      intro del2
      refine ⟨⟨r.1, r.2.1, r.2.2.1, r.2.2.2, [], []⟩, ?_, rfl, rfl, rfl, rfl⟩
      simp only [main_run]
      rw [hm]
      simp

/-- Witness for C7: one matched candidate, a deleter that fails on it —
the failure is reported in `deleteErrors` and the partition equations
hold. -/
theorem main_deletion_spec_witness :
    ∃ out, main_run exFsAB exWalkAB "cam" ["lib"] true (fun _ => false) =
        .ok out ∧
      out.deleted =
        (if true then out.notNeeded.filter (fun p => (fun _ : String => false) p)
         else []) ∧
      out.deleteErrors =
        (if true then out.notNeeded.filter (fun p => !((fun _ : String => false) p))
         else []) := by
  have h : main_run exFsAB exWalkAB "cam" ["lib"] true (fun _ => false) =
      .ok ⟨[], ["cam/C"], [("cam/C", "lib/B")], 1, [], ["cam/C"]⟩ := by rfl
  obtain ⟨h1, h2, _⟩ :=
    main_deletion_spec exFsAB exWalkAB "cam" ["lib"] true (fun _ => false) _ h
  exact ⟨_, h, h1, h2⟩

/-- C10: with the camera root doubling as a library root, the candidate's
own path sits in its length bucket, the shallow check short-circuits on
the identical signature, the full comparison trivially succeeds, and the
resolver matches `cam/x` to itself; under `--rmdups` the file is then
deleted even though its recorded "library copy" is the file itself. -/
theorem main_self_overlap_deletes :
    main_run exFsSelf exWalkSelf "cam" ["cam"] true (fun _ => true) =
      .ok ⟨[], ["cam/x"], [("cam/x", "cam/x")], 1, ["cam/x"], []⟩ := by rfl

/-! The filecmp cache and determinism of repeated resolution -/

/-- A cache hit returns a stored entry. -/
theorem cacheGet_mem (c : filecmp.Cache) : ∀ k b,
    filecmp.cacheGet c k = some b → (k, b) ∈ c := by
  induction c with
  | nil => intro k b h; cases h
  | cons e rest ih =>
    intro k b h
    by_cases hk : e.1 = k
    · have he : filecmp.cacheGet (e :: rest) k = some e.2 := by
        simp [filecmp.cacheGet, List.find?_cons, hk]
      rw [he] at h
      cases h
      rw [← hk]
      simp
    · have he : filecmp.cacheGet (e :: rest) k = filecmp.cacheGet rest k := by
        simp [filecmp.cacheGet, List.find?_cons, hk]
      rw [he] at h
      exact List.mem_cons_of_mem _ (ih k b h)

/-- Refinement: `cmpC` matches `cmp` — from a consistent cache it raises the same
exception or returns the same Boolean as the stateless comparison, and
leaves a consistent cache. -/
theorem cmpC_refines (fs : FS) (c : filecmp.Cache) (sh : Bool) (p1 p2 : String)
    (hc : CacheConsistent fs c) :
    (∀ e, filecmp.cmp fs sh p1 p2 = .error e →
      filecmp.cmpC fs c sh p1 p2 = .error e) ∧
    (∀ b, filecmp.cmp fs sh p1 p2 = .ok b →
      ∃ c2, filecmp.cmpC fs c sh p1 p2 = .ok (b, c2) ∧ CacheConsistent fs c2) := by
  cases h1 : fs p1 with
  | none =>
    have hcmp : filecmp.cmp fs sh p1 p2 = .error (.statError p1) := by
      simp [filecmp.cmp, h1]
    refine ⟨?_, ?_⟩
    · intro e he
      rw [hcmp] at he
      cases he
      simp [filecmp.cmpC, h1]
    · intro b hb
      rw [hcmp] at hb
      cases hb
  | some f1 =>
    cases h2 : fs p2 with
    | none =>
      have hcmp : filecmp.cmp fs sh p1 p2 = .error (.statError p2) := by
        simp [filecmp.cmp, h1, h2]
      refine ⟨?_, ?_⟩
      · intro e he
        rw [hcmp] at he
        cases he
        simp [filecmp.cmpC, h1, h2]
      · intro b hb
        rw [hcmp] at hb
        cases hb
    | some f2 =>
      refine ⟨?_, ?_⟩
      · intro e he
        obtain ⟨b, hb⟩ := cmp_ok_of_statable fs sh p1 p2 f1 f2 h1 h2
        rw [hb] at he
        cases he
      · intro b hb
        by_cases hs : sh = true ∧ fsig f1 = fsig f2
        · have hb2 : b = true := by
            rw [show filecmp.cmp fs sh p1 p2 = .ok true by
              simp [filecmp.cmp, h1, h2, hs]] at hb
            cases hb
            rfl
          subst hb2
          exact ⟨c, by simp [filecmp.cmpC, h1, h2, hs], hc⟩
        · by_cases hl : f1.content.length ≠ f2.content.length
          · have hb2 : b = false := by
              rw [show filecmp.cmp fs sh p1 p2 = .ok false by
                simp [filecmp.cmp, h1, h2, hs, hl]] at hb
              cases hb
              rfl
            subst hb2
            exact ⟨c, by simp [filecmp.cmpC, h1, h2, hs, hl], hc⟩
          · have hb2 : b = decide (f1.content = f2.content) := by
              rw [show filecmp.cmp fs sh p1 p2 =
                  .ok (decide (f1.content = f2.content)) by
                simp [filecmp.cmp, h1, h2, hs, hl]] at hb
              cases hb
              rfl
            subst hb2
            cases hg : filecmp.cacheGet c (p1, p2, fsig f1, fsig f2) with
            | some b0 =>
              have hb0 : b0 = decide (f1.content = f2.content) :=
                hc p1 p2 _ _ b0 (cacheGet_mem c _ b0 hg) f1 f2 h1 h2 rfl rfl
              refine ⟨c, ?_, hc⟩
              simp [filecmp.cmpC, h1, h2, hs, hl, hg, hb0]
            | none =>
              refine ⟨((p1, p2, fsig f1, fsig f2),
                  decide (f1.content = f2.content)) ::
                  (if c.length > 100 then [] else c), ?_, ?_⟩
              · simp [filecmp.cmpC, h1, h2, hs, hl, hg]
              · intro q1 q2 s1 s2 bb hmem g1 g2 hg1 hg2 hs1 hs2
                rcases List.mem_cons.1 hmem with hhead | htail
                · cases hhead
                  rw [h1] at hg1
                  rw [h2] at hg2
                  cases hg1
                  cases hg2
                  rfl
                · have htail2 : ((q1, q2, s1, s2), bb) ∈ c := by
                    by_cases hlen : c.length > 100
                    · rw [if_pos hlen] at htail
                      cases htail
                    · rwa [if_neg hlen] at htail
                  exact hc q1 q2 s1 s2 bb htail2 g1 g2 hg1 hg2 hs1 hs2


/-- Unfolding of the cache-threaded bucket loop on a non-empty bucket. -/
theorem locateGoC_cons (fs : FS) (tgt p : String) (rest : List String)
    (c : filecmp.Cache) :
    locateGoC fs tgt (p :: rest) c =
      match filecmp.cmpC fs c true tgt p with
      | .error e => .error e
      | .ok (false, c1) => locateGoC fs tgt rest c1
      | .ok (true, c1) =>
        match filecmp.cmpC fs c1 false tgt p with
        | .error e => .error e
        | .ok (true, c2) => .ok (some p, c2)
        | .ok (false, c2) => locateGoC fs tgt rest c2 := rfl

/-- The cache-threaded bucket loop refines the stateless one: starting
from any consistent cache it raises the same exception or returns the
same match result, leaving a consistent cache. -/
theorem locateGoC_refines (fs : FS) (tgt : String) (l : List String) :
    ∀ c calls, CacheConsistent fs c →
      (∀ e, locateGo fs tgt l calls = .error e →
        locateGoC fs tgt l c = .error e) ∧
      (∀ out, locateGo fs tgt l calls = .ok out →
        ∃ c2, locateGoC fs tgt l c = .ok (out.result, c2) ∧
          CacheConsistent fs c2) := by
  induction l with
  | nil =>
    intro c calls hc
    refine ⟨?_, ?_⟩
    · intro e he
      simp only [locateGo] at he
      cases he
    · intro out hout
      simp only [locateGo] at hout
      cases hout
      exact ⟨c, rfl, hc⟩
  | cons p rest ih =>
    intro c calls hc
    have hcmp := cmpC_refines fs c true tgt p hc
    refine ⟨?_, ?_⟩
    · intro e he
      rw [locateGo_cons] at he
      cases hsh : filecmp.cmp fs true tgt p with
      | error e2 =>
        rw [hsh] at he
        cases he
        simp only [locateGoC_cons, hcmp.1 e hsh]
      | ok b =>
        rw [hsh] at he
        obtain ⟨c1, hC1, hc1⟩ := hcmp.2 b hsh
        cases b with
        | false =>
          simp only [locateGoC_cons, hC1]
          exact (ih c1 (calls + 1) hc1).1 e he
        | true =>
          have hcmp2 := cmpC_refines fs c1 false tgt p hc1
          cases hfull : filecmp.cmp fs false tgt p with
          | error e2 =>
            rw [hfull] at he
            cases he
            simp only [locateGoC_cons, hC1, hcmp2.1 e hfull]
          | ok b2 =>
            rw [hfull] at he
            obtain ⟨c2, hC2, hc2⟩ := hcmp2.2 b2 hfull
            cases b2 with
            | true => cases he
            | false =>
              simp only [locateGoC_cons, hC1, hC2]
              exact (ih c2 (calls + 2) hc2).1 e he
    · intro out hout
      rw [locateGo_cons] at hout
      cases hsh : filecmp.cmp fs true tgt p with
      | error e2 =>
        rw [hsh] at hout
        cases hout
      | ok b =>
        rw [hsh] at hout
        obtain ⟨c1, hC1, hc1⟩ := hcmp.2 b hsh
        cases b with
        | false =>
          obtain ⟨c2, hC2, hc2⟩ := (ih c1 (calls + 1) hc1).2 out hout
          refine ⟨c2, ?_, hc2⟩
          simp only [locateGoC_cons, hC1]
          exact hC2
        | true =>
          have hcmp2 := cmpC_refines fs c1 false tgt p hc1
          cases hfull : filecmp.cmp fs false tgt p with
          | error e2 =>
            rw [hfull] at hout
            cases hout
          | ok b2 =>
            rw [hfull] at hout
            obtain ⟨c2, hC2, hc2⟩ := hcmp2.2 b2 hfull
            cases b2 with
            | true =>
              cases hout
              refine ⟨c2, ?_, hc2⟩
              simp only [locateGoC_cons, hC1, hC2]
            | false =>
              obtain ⟨c3, hC3, hc3⟩ := (ih c2 (calls + 2) hc2).2 out hout
              refine ⟨c3, ?_, hc3⟩
              simp only [locateGoC_cons, hC1, hC2]
              exact hC3

/-- Refinement: `locateC` matches `locate` — from any consistent cache, a run with the
module-level cache produces exactly the stateless match result and leaves
a consistent cache. -/
theorem locateC_refines (fs : FS) (tgt : String)
    (survey : List (Nat × List String)) (c : filecmp.Cache)
    (hc : CacheConsistent fs c) :
    (∀ e, locate fs tgt survey = .error e → locateC fs tgt survey c = .error e) ∧
    (∀ out, locate fs tgt survey = .ok out →
      ∃ c2, locateC fs tgt survey c = .ok (out.result, c2) ∧
        CacheConsistent fs c2) := by
  cases hT : fs tgt with
  | none =>
    refine ⟨?_, ?_⟩
    · intro e he
      simp only [locate, hT] at he
      cases he
      simp [locateC, hT]
    · intro out hout
      simp only [locate, hT] at hout
      cases hout
  | some f =>
    by_cases hBe : bucketContents survey f.content.length = []
    · refine ⟨?_, ?_⟩
      · intro e he
        simp only [locate, hT] at he
        rw [if_pos hBe] at he
        cases he
      · intro out hout
        simp only [locate, hT] at hout
        rw [if_pos hBe] at hout
        cases hout
        refine ⟨c, ?_, hc⟩
        simp only [locateC, hT]
        rw [if_pos hBe]
    · have hgo := locateGoC_refines fs tgt
        (bucketContents survey f.content.length) c 0 hc
      refine ⟨?_, ?_⟩
      · intro e he
        simp only [locate, hT] at he
        rw [if_neg hBe] at he
        simp only [locateC, hT]
        rw [if_neg hBe]
        exact hgo.1 e he
      · intro out hout
        simp only [locate, hT] at hout
        rw [if_neg hBe] at hout
        obtain ⟨c2, hC2, hc2⟩ := hgo.2 out hout
        refine ⟨c2, ?_, hc2⟩
        simp only [locateC, hT]
        rw [if_neg hBe]
        exact hC2

/-- C8: for a fixed filesystem state and fixed traversal order, resolving
the same candidate twice against the same index yields the same match
result both times — even accounting for the `filecmp._cache` state the
first resolution leaves behind (starting from any cache consistent with
the filesystem, e.g. the empty one). -/
theorem locate_deterministic (fs : FS) (tgt : String)
    (survey : List (Nat × List String)) (c0 c1 c2 : filecmp.Cache)
    (r1 r2 : Option String)
    (hc : CacheConsistent fs c0)
    (h1 : locateC fs tgt survey c0 = .ok (r1, c1))
    (h2 : locateC fs tgt survey c1 = .ok (r2, c2)) : r1 = r2 := by
  cases hL : locate fs tgt survey with
  | error e =>
    have habs := (locateC_refines fs tgt survey c0 hc).1 e hL
    rw [habs] at h1
    cases h1
  | ok out =>
    obtain ⟨c1a, hC1, hc1⟩ := (locateC_refines fs tgt survey c0 hc).2 out hL
    rw [hC1] at h1
    injection h1 with hp1
    injection hp1 with hr1 hc1eq
    subst hr1
    subst hc1eq
    obtain ⟨c2a, hC2, hc2⟩ := (locateC_refines fs tgt survey c1a hc1).2 out hL
    rw [hC2] at h2
    injection h2 with hp2
    injection hp2 with hr2 hc2eq

/-- Witness for C8: resolving `cam/C` twice on `exFsAB`, threading the
real cache state `exCacheAB` left by the first run, matches `lib/B` both
times. -/
theorem locate_deterministic_witness :
    locateC exFsAB "cam/C" (survey_library exFsAB exWalkAB ["lib"]).res [] =
        .ok (some "lib/B", exCacheAB) ∧
    locateC exFsAB "cam/C" (survey_library exFsAB exWalkAB ["lib"]).res
        exCacheAB = .ok (some "lib/B", exCacheAB) ∧
    (some "lib/B" : Option String) = some "lib/B" := by
  have hc : CacheConsistent exFsAB [] :=
    fun p1 p2 s1 s2 b h => absurd h (List.not_mem_nil _)
  have h1 : locateC exFsAB "cam/C"
      (survey_library exFsAB exWalkAB ["lib"]).res [] =
      .ok (some "lib/B", exCacheAB) := by rfl
  have h2 : locateC exFsAB "cam/C"
      (survey_library exFsAB exWalkAB ["lib"]).res exCacheAB =
      .ok (some "lib/B", exCacheAB) := by rfl
  exact ⟨h1, h2,
    locate_deterministic exFsAB "cam/C"
      (survey_library exFsAB exWalkAB ["lib"]).res [] exCacheAB exCacheAB
      (some "lib/B") (some "lib/B") hc h1 h2⟩
